import Mathlib

/-!
The declaration-to-model pipeline of ts2go.

A shallow embedding of `parse.go`, `mixin.go`, `option.go` and of the data model, the mixin
loop and the template set-up of `ts2go.go`.

* A Go `string` is a sequence of bytes: `GoString` is a list of byte values (`Nat`, each
  below 256 for a real string). Slicing `s[:1]` / `s[1:]` is byte slicing.
* A Go slice of pointers (`[]*Struct`, `[]*Field`) is a list of values; the builder never
  stores a nil pointer and never shares one record between two slots.
* A run-time abort (a Go panic) is the result `none`.
* The syntax tree comes from the external package `typescript-ast-go/ast`; it is embedded
  with exactly the node kinds and fields that `parse.go` reads, every other node kind
  (and a nil interface value) being an `other` node. The content of an index signature,
  which `parse.go` never reads, is an uninterpreted number.
* The walk `ast.Inspect` of that package is a pre-order walk that aborts when it reaches a nil
  child node; the tree it walks keeps its nil children as `nilNode`.
* The package variable `DefaultPackageName` is assignable: its value at the time of the call is
  an argument of `parseSourceFile`.
* The embedded template directory and the library function `template.ParseFS` are
  parameters of `createTemplate`.
-/

set_option autoImplicit false

namespace Ts2go

/-! ## Strings -/

/-- A Go string: its bytes, in order. -/
abbrev GoString := List Nat

/-- UTF-8 encoding of one code point (as Go source text is encoded). -/
def utf8EncodeNat (n : Nat) : List Nat :=
  if n < 0x80 then [n]
  else if n < 0x800 then [0xC0 + n / 0x40, 0x80 + n % 0x40]
  else if n < 0x10000 then [0xE0 + n / 0x1000, 0x80 + (n / 0x40) % 0x40, 0x80 + n % 0x40]
  else [0xF0 + n / 0x40000, 0x80 + (n / 0x1000) % 0x40, 0x80 + (n / 0x40) % 0x40,
        0x80 + n % 0x40]

/-- The bytes of a string literal. -/
def go (s : String) : GoString :=
  s.toList.flatMap fun c => utf8EncodeNat c.toNat

/-- The ASCII branch of `strings.ToUpper` on one byte: `c -= 'a' - 'A'` for `'a' ≤ c ≤ 'z'`,
any other byte is kept. -/
def asciiToUpper (c : Nat) : Nat :=
  if 97 ≤ c ∧ c ≤ 122 then c - 32 else c

/-- Go's `strings.ToUpper` on the one-byte string `[c]` (the program only ever calls it on
`Text[:1]`). A byte below `utf8.RuneSelf` (0x80) takes the ASCII branch. A byte from 0x80
on is not valid UTF-8 on its own: it decodes to `utf8.RuneError`, which `strings.Map`
writes out as the three bytes of U+FFFD. -/
def stringsToUpper1 (c : Nat) : GoString :=
  if c < 128 then [asciiToUpper c] else [0xEF, 0xBF, 0xBD]

/-- Go's `strings.Split(s, "\n")`: the pieces of `s` between line breaks (byte 10). The
result is never empty; `strings.Split("", "\n")` is `[""]`. -/
def stringsSplitNewline : GoString → List GoString
  | [] => [[]]
  | c :: cs =>
    if c = 10 then [] :: stringsSplitNewline cs
    else
      match stringsSplitNewline cs with
      | [] => [[c]]
      | l :: ls => (c :: l) :: ls

/-! ## Syntax tree (package `ast`) -/

/-- An `*ast.Identifier`. -/
structure Identifier where
  Text : GoString

/-- An `*ast.PropertySignature`, over the type of type-expression nodes. -/
structure PropertySignatureOf (τ : Type) where
  Name : Identifier
  QuestionToken : Bool
  Type_ : τ
  LeadingComment : GoString
  TrailingComment : GoString

mutual
/-- An `ast.Type` value: a type expression. -/
inductive TypeNode where
  | typeReference (TypeName : TypeName)
  | typeLiteral (Members : List Signature)
  | other (kind : Nat)
/-- The `TypeName` of an `*ast.TypeReference`. -/
inductive TypeName where
  | identifier (id : Identifier)
  | typeLiteral (Members : List Signature)
  | other (kind : Nat)
/-- An `ast.Signature` value: a member of an interface or type literal. -/
inductive Signature where
  | propertySignature (prop : PropertySignatureOf TypeNode)
  | indexSignature (content : Nat)
  | other (kind : Nat)
end

/-- An `*ast.PropertySignature`. -/
abbrev PropertySignature := PropertySignatureOf TypeNode

/-- An `*ast.TypeAliasDeclaration`. -/
structure TypeAliasDeclaration where
  Name : Identifier
  Type_ : TypeNode
  LeadingComment : GoString

/-- An `*ast.ExpressionWithTypeArguments`: one heritage type. -/
structure ExpressionWithTypeArguments where
  Expression : Identifier

/-- An `*ast.HeritageClause`. -/
structure HeritageClause where
  Types : List ExpressionWithTypeArguments

/-- An `*ast.InterfaceDeclaration`. -/
structure InterfaceDeclaration where
  Name : Identifier
  HeritageClauses : List HeritageClause
  Members : List Signature
  LeadingComment : GoString

/-- A node below a declaration (its name, its type, its members and what they contain) as
`ast.Inspect` walks it: a node with its child nodes in source order, or a nil child. The
callback of `parseSourceFile` matches no case on such a node. -/
inductive SubNode where
  | node (kind : Nat) (children : List SubNode)
  | nilNode

/-- A node of the tree that `ast.Inspect` walks, as far as `parseSourceFile` tells nodes
apart: a type alias declaration or an interface declaration, each with the nodes below it; any
other node with its child nodes in source order; or a nil child. -/
inductive Node where
  | typeAliasDeclaration (node : TypeAliasDeclaration) (children : List SubNode)
  | interfaceDeclaration (node : InterfaceDeclaration) (children : List SubNode)
  | other (kind : Nat) (children : List Node)
  | nilNode

/-- An `*ast.SourceFile`: the root of the tree, with its child nodes in source order. -/
structure SourceFile where
  Statements : List Node

/-! ## Data model (`ts2go.go`) -/

/-- The `CustomData` map: a keyed bag. The core never reads or writes it; values are kept as bytes. -/
abbrev CustomData := List (GoString × GoString)

/-- Type `Field` of `ts2go.go`: the data model for a field within a struct. -/
structure Field where
  Name : GoString
  Doc : List GoString
  Type_ : GoString
  IsPointer : Bool
  JSONName : GoString
  OmitEmpty : Bool
  CustomData : CustomData
  deriving DecidableEq

/-- Type `Struct` of `ts2go.go`: the data model for the struct template. -/
structure Struct where
  Name : GoString
  Doc : List GoString
  Embeds : List GoString
  Fields : List Field
  CustomData : CustomData
  deriving DecidableEq

/-- Type `TypeAlias` of `ts2go.go`. -/
structure TypeAlias where
  Name : GoString
  Doc : List GoString
  Type_ : GoString
  CustomData : CustomData
  deriving DecidableEq

/-- Type `ConstGroup` of `ts2go.go`. -/
structure ConstGroup where
  Doc : List GoString
  CustomData : CustomData
  deriving DecidableEq

/-- Type `TemplateData` of `ts2go.go`: the document handed to mixins and templates. -/
structure TemplateData where
  SkipHeader : Bool
  PackageName : GoString
  Structs : List Struct
  TypeAliases : List TypeAlias
  ConstGroups : List ConstGroup
  deriving DecidableEq

/-! ## The model builder (`parse.go`) -/

/-- Function `createTypeAlias` of `parse.go`. -/
def createTypeAlias (name referencedName leadingComment : GoString) : TypeAlias :=
  let al : TypeAlias := { Name := name, Type_ := referencedName, Doc := [], CustomData := [] }
  if leadingComment ≠ [] then
    { al with Doc := stringsSplitNewline leadingComment }
  else
    al

/-- Function `addFieldFromPropertySignature` of `parse.go`. The slice `prop.Name.Text[:1]` aborts on
the empty string (slice bounds out of range); on `c :: rest` it is `[c]` and
`prop.Name.Text[1:]` is `rest`. -/
def addFieldFromPropertySignature (stru : Struct) (prop : PropertySignature) : Option Struct :=
  match prop.Name.Text with
  | [] => none
  | c :: rest =>
    let field : Field :=
      { JSONName := prop.Name.Text
        Name := stringsToUpper1 c ++ rest
        OmitEmpty := prop.QuestionToken
        IsPointer := prop.QuestionToken
        Doc := []
        Type_ := []
        CustomData := [] }
    let field : Field :=
      if prop.LeadingComment ≠ [] then
        { field with Doc := stringsSplitNewline prop.LeadingComment }
      else if prop.TrailingComment ≠ [] then
        { field with Doc := [prop.TrailingComment] }
      else
        field
    let field : Field :=
      match prop.Type_ with
      | .typeReference (.identifier t) =>
        if t.Text = go "boolean" then
          { field with Type_ := go "bool" }
        else
          { field with Type_ := t.Text }
      | .typeReference _ => { field with Type_ := go "any" }
      | _ => { field with Type_ := go "any" }
    some { stru with Fields := stru.Fields ++ [field] }

/-- The member loop of `createStruct`: a property signature adds a field, an index
signature is skipped (the `TODO` case), any other member kind matches no case. -/
def createStructMembers (stru : Struct) : List Signature → Option Struct
  | [] => some stru
  | .propertySignature prop :: rest =>
    match addFieldFromPropertySignature stru prop with
    | none => none
    | some stru1 => createStructMembers stru1 rest
  | .indexSignature _ :: rest => createStructMembers stru rest
  | .other _ :: rest => createStructMembers stru rest

/-- Function `createStruct` of `parse.go`. -/
def createStruct (name leadingComment : GoString) (members : List Signature) : Option Struct :=
  let stru : Struct := { Name := name, Doc := [], Embeds := [], Fields := [], CustomData := [] }
  let stru : Struct :=
    if leadingComment ≠ [] then
      { stru with Doc := stringsSplitNewline leadingComment }
    else
      stru
  createStructMembers stru members

/-- The inner loop of `handleInterfaceDeclaration`, over the types of one heritage clause. -/
def appendHeritageTypes (stru : Struct) : List ExpressionWithTypeArguments → Struct
  | [] => stru
  | t :: ts => appendHeritageTypes { stru with Embeds := stru.Embeds ++ [t.Expression.Text] } ts

/-- The outer loop of `handleInterfaceDeclaration`, over the heritage clauses. -/
def appendHeritageClauses (stru : Struct) : List HeritageClause → Struct
  | [] => stru
  | h :: hs => appendHeritageClauses (appendHeritageTypes stru h.Types) hs

/-- Function `handleInterfaceDeclaration` of `parse.go`, passing the document explicitly. -/
def handleInterfaceDeclaration (data : TemplateData) (node : InterfaceDeclaration) :
    Option TemplateData :=
  match createStruct node.Name.Text node.LeadingComment node.Members with
  | none => none
  | some stru =>
    let stru := appendHeritageClauses stru node.HeritageClauses
    some { data with Structs := data.Structs ++ [stru] }

/-- Function `handleTypeAliasDeclaration` of `parse.go`, passing the document explicitly. -/
def handleTypeAliasDeclaration (data : TemplateData) (node : TypeAliasDeclaration) :
    Option TemplateData :=
  match node.Type_ with
  | .typeLiteral members =>
    match createStruct node.Name.Text node.LeadingComment members with
    | none => none
    | some stru => some { data with Structs := data.Structs ++ [stru] }
  | .typeReference (.identifier typeName) =>
    some { data with
      TypeAliases :=
        data.TypeAliases ++ [createTypeAlias node.Name.Text typeName.Text node.LeadingComment] }
  | .typeReference (.typeLiteral members) =>
    match createStruct node.Name.Text node.LeadingComment members with
    | none => none
    | some stru => some { data with Structs := data.Structs ++ [stru] }
  | .typeReference (.other _) => some data
  | .other _ => some data

/-- The value the variable `DefaultPackageName` of `ts2go.go` is initialised to. The variable
is exported and assignable, so the code reads whatever it holds at the time of the call. -/
def DefaultPackageName : GoString := go "types"

mutual
/-- The walk of `ast.Inspect` at a node below a declaration: the callback does nothing there
and returns true, the walk goes on into the children; at a nil child the walk aborts. -/
def inspectSubNode : SubNode → Option Unit
  | .node _ children => inspectSubNodes children
  | .nilNode => none
/-- The walk of `ast.Inspect` over sibling nodes below a declaration, in order. -/
def inspectSubNodes : List SubNode → Option Unit
  | [] => some ()
  | node :: rest =>
    match inspectSubNode node with
    | none => none
    | some _ => inspectSubNodes rest
end

mutual
/-- The callback of `parseSourceFile` on one node, followed by the walk of the node's
children (the callback always returns true, so `ast.Inspect` descends everywhere); at a nil
child the walk aborts. -/
def inspectNode (data : TemplateData) : Node → Option TemplateData
  | .typeAliasDeclaration node children =>
    match handleTypeAliasDeclaration data node with
    | none => none
    | some data1 =>
      match inspectSubNodes children with
      | none => none
      | some _ => some data1
  | .interfaceDeclaration node children =>
    match handleInterfaceDeclaration data node with
    | none => none
    | some data1 =>
      match inspectSubNodes children with
      | none => none
      | some _ => some data1
  | .other _ children => inspectNodes data children
  | .nilNode => none
/-- The walk of `ast.Inspect` over a list of sibling nodes, in order. -/
def inspectNodes (data : TemplateData) : List Node → Option TemplateData
  | [] => some data
  | node :: rest =>
    match inspectNode data node with
    | none => none
    | some data1 => inspectNodes data1 rest
end

/-- Function `parseSourceFile` of `parse.go`. The argument `defaultPackageName` is the value
the package variable `DefaultPackageName` holds when the function is called. The result is the
returned pair of document and error, the error being `none` for Go's nil; an abort during the
walk is `none`. -/
def parseSourceFile (defaultPackageName : GoString) (sourceFile : SourceFile) :
    Option (TemplateData × Option GoString) :=
  let data : TemplateData :=
    { PackageName := defaultPackageName, SkipHeader := false, Structs := [], TypeAliases := [],
      ConstGroups := [] }
  match inspectNodes data sourceFile.Statements with
  | none => none
  | some data1 => some (data1, none)

/-! ## Mixins (`mixin.go`) -/

/-- A `Mixin` mutates the document; here it maps the document before to the document after. -/
abbrev Mixin := TemplateData → TemplateData

/-- The inner loop of `SkipOptionalPointer`: `f.IsPointer = false` for each field in turn. -/
def clearIsPointerFields : List Field → List Field
  | [] => []
  | f :: fs => { f with IsPointer := false } :: clearIsPointerFields fs

/-- The outer loop of `SkipOptionalPointer`, over the structs. -/
def clearIsPointerStructs : List Struct → List Struct
  | [] => []
  | s :: ss => { s with Fields := clearIsPointerFields s.Fields } :: clearIsPointerStructs ss

/-- Mixin `SkipOptionalPointer` of `mixin.go`. -/
def SkipOptionalPointer : Mixin :=
  fun data => { data with Structs := clearIsPointerStructs data.Structs }

/-- Mixin `SkipHeader` of `mixin.go`. -/
def SkipHeader : Mixin :=
  fun data => { data with SkipHeader := true }

/-- Mixin `SetPackageName` of `mixin.go`. -/
def SetPackageName (name : GoString) : Mixin :=
  fun data => { data with PackageName := name }

/-! ## The generator (`ts2go.go`, `option.go`) -/

/-- A file system (`fs.FS`): its files, as path and content. -/
abbrev FS := List (GoString × GoString)

/-- Type `generator` of `ts2go.go`. The reader and the writer are the bytes still to be read
and the bytes written so far; a nil `templateOverrideFS` is `none`. -/
structure generator where
  source : GoString
  output : GoString
  mixins : List Mixin
  templateOverrideFS : Option FS

/-- Type `Option` of `option.go`: an option mutates the generator; here it maps the generator
before to the generator after. -/
abbrev GenOption := generator → generator

/-- Option `WithMixin` of `option.go`: `g.mixins = append(g.mixins, mixins...)`. -/
def WithMixin (mixins : List Mixin) : GenOption :=
  fun g => { g with mixins := g.mixins ++ mixins }

/-- Option `WithTemplateOverrideFS` of `option.go`. -/
def WithTemplateOverrideFS (fsys : FS) : GenOption :=
  fun g => { g with templateOverrideFS := some fsys }

/-- The option loop of `Generate`: `for _, opt := range opts { opt(g) }`. -/
def applyOptions (g : generator) : List GenOption → generator
  | [] => g
  | opt :: rest => applyOptions (opt g) rest

/-- The generator `Generate` starts from, before any option is applied. -/
def newGenerator (source : GoString) : generator :=
  { source := source, output := [], mixins := [], templateOverrideFS := none }

/-- The loop of `generator.applyMixins`: `for _, mixin := range g.mixins { mixin(data) }`. -/
def applyMixinsLoop (templateData : TemplateData) : List Mixin → TemplateData
  | [] => templateData
  | mixin :: rest => applyMixinsLoop (mixin templateData) rest

/-- Method `generator.applyMixins` of `ts2go.go`. -/
def generator.applyMixins (g : generator) (templateData : TemplateData) : TemplateData :=
  applyMixinsLoop templateData g.mixins

/-- Method `generator.createTemplate` of `ts2go.go`. The embedded directory `templateFS`
(`internal/templates`) and the library function `template.ParseFS` are parameters; `T` is the
type of a parsed template set. The override file system is read and discarded
(`_ = g.templateOverrideFS`). -/
def generator.createTemplate {T : Type} (ParseFS : FS → GoString → Except GoString T)
    (templateFS : FS) (g : generator) : Except GoString T :=
  match ParseFS templateFS (go "internal/templates/*.tmpl") with
  | .error err => .error (go "failed to parse builtin templates: " ++ err)
  | .ok tmpl =>
    let _ := g.templateOverrideFS
    .ok tmpl

/-! ## Definitions used to state the properties -/

/-- Every property signature of the member list has a non-empty name. -/
def propertyNamesNonEmpty : List Signature → Bool
  | [] => true
  | .propertySignature prop :: rest => !prop.Name.Text.isEmpty && propertyNamesNonEmpty rest
  | _ :: rest => propertyNamesNonEmpty rest

/-- Whether a member is an index signature. -/
def Signature.isIndexSignature : Signature → Bool
  | .indexSignature _ => true
  | _ => false

/-- The member list with its index signatures removed. -/
def withoutIndexSignatures (members : List Signature) : List Signature :=
  members.filter fun m => !m.isIndexSignature

/-- The referenced names of all heritage types, clause by clause, in declared order. -/
def heritageNames (clauses : List HeritageClause) : List GoString :=
  clauses.flatMap fun h => h.Types.map fun t => t.Expression.Text

/-- Field `f1` is field `f` with IsPointer cleared and nothing else changed. -/
def FieldCleared (f1 f : Field) : Prop :=
  f1.IsPointer = false ∧ f1.OmitEmpty = f.OmitEmpty ∧ f1.Name = f.Name ∧
    f1.JSONName = f.JSONName ∧ f1.Type_ = f.Type_ ∧ f1.Doc = f.Doc ∧
    f1.CustomData = f.CustomData

/-- Struct `s1` is struct `s` with the same fields in the same order, each with IsPointer
cleared, and nothing else changed. -/
def StructCleared (s1 s : Struct) : Prop :=
  s1.Name = s.Name ∧ s1.Doc = s.Doc ∧ s1.Embeds = s.Embeds ∧ s1.CustomData = s.CustomData ∧
    List.Forall₂ FieldCleared s1.Fields s.Fields

/-- The value `addFieldFromPropertySignature` leaves in `field.Doc` (lines 87-91). -/
def fieldDocOf (prop : PropertySignature) : List GoString :=
  if prop.LeadingComment ≠ [] then stringsSplitNewline prop.LeadingComment
  else if prop.TrailingComment ≠ [] then [prop.TrailingComment]
  else []

/-- The value `addFieldFromPropertySignature` leaves in `field.Type` (lines 93-111). -/
def fieldTypeOf : TypeNode → GoString
  | .typeReference (.identifier t) => if t.Text = go "boolean" then go "bool" else t.Text
  | _ => go "any"

/-- A recognised declaration: a type alias declaration or an interface declaration. -/
inductive Declaration where
  | typeAlias (node : TypeAliasDeclaration)
  | interface (node : InterfaceDeclaration)

mutual
/-- The declarations at or below a node, in lexical order (pre-order). -/
def declarationsOfNode : Node → List Declaration
  | .typeAliasDeclaration node _ => [.typeAlias node]
  | .interfaceDeclaration node _ => [.interface node]
  | .other _ children => declarationsOfNodes children
  | .nilNode => []
/-- The declarations at or below a list of sibling nodes, in lexical order. -/
def declarationsOfNodes : List Node → List Declaration
  | [] => []
  | node :: rest => declarationsOfNode node ++ declarationsOfNodes rest
end

/-- The declarations of a source file, in lexical order. -/
def declarationsOf (sourceFile : SourceFile) : List Declaration :=
  declarationsOfNodes sourceFile.Statements

mutual
/-- No nil child at or below a node that lies below a declaration. -/
def subNodeNonNil : SubNode → Bool
  | .node _ children => subNodesNonNil children
  | .nilNode => false
/-- No nil child at or below any of the sibling nodes below a declaration. -/
def subNodesNonNil : List SubNode → Bool
  | [] => true
  | node :: rest => subNodeNonNil node && subNodesNonNil rest
end

mutual
/-- No nil child at or below a node. -/
def nodeNonNil : Node → Bool
  | .typeAliasDeclaration _ children => subNodesNonNil children
  | .interfaceDeclaration _ children => subNodesNonNil children
  | .other _ children => nodesNonNil children
  | .nilNode => false
/-- No nil child at or below any of the sibling nodes. -/
def nodesNonNil : List Node → Bool
  | [] => true
  | node :: rest => nodeNonNil node && nodesNonNil rest
end

/-- The struct a declaration stands for: an interface (with the names of its heritage types
as Embeds), or a type alias of an inline object shape; no struct for any other declaration. -/
def structOfDeclaration : Declaration → Option Struct
  | .interface node =>
    (createStruct node.Name.Text node.LeadingComment node.Members).map fun stru =>
      { stru with Embeds := heritageNames node.HeritageClauses }
  | .typeAlias node =>
    match node.Type_ with
    | .typeLiteral members => createStruct node.Name.Text node.LeadingComment members
    | .typeReference (.typeLiteral members) =>
      createStruct node.Name.Text node.LeadingComment members
    | _ => none

/-- The type alias record a declaration stands for: a type alias whose right-hand side is a
type reference naming an identifier; none for any other declaration. -/
def typeAliasOfDeclaration : Declaration → Option TypeAlias
  | .typeAlias node =>
    match node.Type_ with
    | .typeReference (.identifier typeName) =>
      some (createTypeAlias node.Name.Text typeName.Text node.LeadingComment)
    | _ => none
  | .interface _ => none

/-- No property signature among the members a declaration hands to `createStruct` has an
empty name. -/
def Declaration.namesNonEmpty : Declaration → Bool
  | .interface node => propertyNamesNonEmpty node.Members
  | .typeAlias node =>
    match node.Type_ with
    | .typeLiteral members => propertyNamesNonEmpty members
    | .typeReference (.typeLiteral members) => propertyNamesNonEmpty members
    | _ => true

/-- The handler `parseSourceFile` runs on a declaration. -/
def handleDeclaration (data : TemplateData) : Declaration → Option TemplateData
  | .typeAlias node => handleTypeAliasDeclaration data node
  | .interface node => handleInterfaceDeclaration data node

/-- The handlers run on a list of declarations, in order. -/
def handleDeclarations (data : TemplateData) : List Declaration → Option TemplateData
  | [] => some data
  | decl :: rest =>
    match handleDeclaration data decl with
    | none => none
    | some data1 => handleDeclarations data1 rest

/-- The interface declaration `interface A {}`. -/
def interfaceA : InterfaceDeclaration :=
  { Name := ⟨go "A"⟩, HeritageClauses := [], Members := [], LeadingComment := [] }

/-- The type alias declaration `type B = C`. -/
def aliasB : TypeAliasDeclaration :=
  { Name := ⟨go "B"⟩, Type_ := .typeReference (.identifier ⟨go "C"⟩), LeadingComment := [] }

/-- The nodes below `interface A {}`: its name. -/
def interfaceAChildren : List SubNode := [.node 1 []]

/-- The nodes below `type B = C`: its name, and the type reference with its type name. -/
def aliasBChildren : List SubNode := [.node 1 [], .node 2 [.node 1 []]]

/-- The property signatures of a member list, in declaration order. -/
def propertySignaturesOf : List Signature → List PropertySignature
  | [] => []
  | .propertySignature prop :: rest => prop :: propertySignaturesOf rest
  | _ :: rest => propertySignaturesOf rest

/-- Go's `strings.Join(elems, "\n")`: the elements with a line break (byte 10) between
neighbours. -/
def stringsJoinNewline : List GoString → GoString
  | [] => []
  | [l] => l
  | l :: l2 :: ls => l ++ 10 :: stringsJoinNewline (l2 :: ls)

/-- What a Doc built from the leading comment `C` has to be: empty when `C` is empty;
otherwise `C` split on line breaks, which is non-empty, has no line break inside an element,
and joins back to `C`. -/
def LeadingCommentDoc (C : GoString) (doc : List GoString) : Prop :=
  (C = [] → doc = []) ∧
  (C ≠ [] →
    doc = stringsSplitNewline C ∧ doc ≠ [] ∧ (∀ l ∈ doc, 10 ∉ l) ∧ stringsJoinNewline doc = C)

/-- An ASCII letter. -/
def isAsciiLetter (c : Nat) : Bool :=
  (65 ≤ c && c ≤ 90) || (97 ≤ c && c ≤ 122)

/-- An ASCII digit. -/
def isAsciiDigit (c : Nat) : Bool :=
  48 ≤ c && c ≤ 57

/-- Go identifier syntax on ASCII text: a letter or `_`, then letters, digits and `_`. (On
ASCII text this is Go's `identifier = letter { letter | unicode_digit }`; text with a byte
from 0x80 on is not accepted here.) -/
def isGoIdentifier : GoString → Bool
  | [] => false
  | c :: rest =>
    (isAsciiLetter c || c == 95) &&
      rest.all fun d => isAsciiLetter d || isAsciiDigit d || d == 95

/-- TypeScript identifier syntax on ASCII text: a letter, `_` or `$`, then letters, digits,
`_` and `$`. -/
def isTsIdentifier : GoString → Bool
  | [] => false
  | c :: rest =>
    (isAsciiLetter c || c == 95 || c == 36) &&
      rest.all fun d => isAsciiLetter d || isAsciiDigit d || d == 95 || d == 36

/-- Field `f` is the field built from the property signature `prop`: it is what
`addFieldFromPropertySignature` appends for `prop` to any struct, and its JSONName is the
name of `prop`. -/
def FieldBuiltFrom (f : Field) (prop : PropertySignature) : Prop :=
  (∀ stru : Struct,
    addFieldFromPropertySignature stru prop
      = some { stru with Fields := stru.Fields ++ [f] }) ∧
  f.JSONName = prop.Name.Text

/-- The property signature `bar?: string /* My field */` of the package example. -/
def barProperty : PropertySignature :=
  { Name := ⟨go "bar"⟩
    QuestionToken := true
    Type_ := .typeReference (.identifier ⟨go "string"⟩)
    LeadingComment := []
    TrailingComment := go "My field" }

/-- The struct `Foo` before any member is added. -/
def fooStruct : Struct :=
  { Name := go "Foo", Doc := [go "My type"], Embeds := [], Fields := [], CustomData := [] }

/-- The tree of the source `type Foo = { bar?: string /* My field */ }` of the package
example, with leading comment `My type`. -/
def fooSource : SourceFile :=
  { Statements :=
      [.typeAliasDeclaration
        { Name := ⟨go "Foo"⟩, LeadingComment := go "My type",
          Type_ := .typeLiteral [.propertySignature barProperty] }
        [.node 1 [], .node 3 [.node 4 [.node 1 [], .node 2 [.node 1 []]]]]] }

/-! ## Helper lemmas -/

theorem addFieldFromPropertySignature_nil (stru : Struct) (prop : PropertySignature)
    (hname : prop.Name.Text = []) : addFieldFromPropertySignature stru prop = none := by
  simp [addFieldFromPropertySignature, hname]

theorem addFieldFromPropertySignature_cons (stru : Struct) (prop : PropertySignature)
    (c : Nat) (rest : GoString) (hname : prop.Name.Text = c :: rest) :
    addFieldFromPropertySignature stru prop
      = some { stru with
          Fields := stru.Fields ++
            [{ Name := stringsToUpper1 c ++ rest
               Doc := fieldDocOf prop
               Type_ := fieldTypeOf prop.Type_
               IsPointer := prop.QuestionToken
               JSONName := c :: rest
               OmitEmpty := prop.QuestionToken
               CustomData := [] }] } := by
  unfold addFieldFromPropertySignature fieldDocOf
  rw [hname]
  by_cases hl : prop.LeadingComment = [] <;> by_cases ht : prop.TrailingComment = [] <;>
    (cases prop.Type_ with
     | typeReference tn =>
       cases tn with
       | identifier t => by_cases hb : t.Text = go "boolean" <;> simp [fieldTypeOf, hb, hl, ht]
       | typeLiteral ms => simp [fieldTypeOf, hl, ht]
       | other k => simp [fieldTypeOf, hl, ht]
     | typeLiteral ms => simp [fieldTypeOf, hl, ht]
     | other k => simp [fieldTypeOf, hl, ht])

theorem clearIsPointerFields_cleared (fs : List Field) :
    List.Forall₂ FieldCleared (clearIsPointerFields fs) fs := by
  induction fs with
  | nil => exact List.Forall₂.nil
  | cons f fs ih =>
    exact List.Forall₂.cons ⟨rfl, rfl, rfl, rfl, rfl, rfl, rfl⟩ ih

theorem clearIsPointerStructs_cleared (ss : List Struct) :
    List.Forall₂ StructCleared (clearIsPointerStructs ss) ss := by
  induction ss with
  | nil => exact List.Forall₂.nil
  | cons s ss ih =>
    exact List.Forall₂.cons ⟨rfl, rfl, rfl, rfl, clearIsPointerFields_cleared s.Fields⟩ ih

theorem createStructMembers_isSome (stru : Struct) (members : List Signature) :
    (createStructMembers stru members).isSome = propertyNamesNonEmpty members := by
  induction members generalizing stru with
  | nil => rfl
  | cons m rest ih =>
    cases m with
    | propertySignature prop =>
      cases h : prop.Name.Text with
      | nil =>
        simp [createStructMembers, propertyNamesNonEmpty,
          addFieldFromPropertySignature_nil stru prop h, h]
      | cons c cs =>
        simp [createStructMembers, propertyNamesNonEmpty,
          addFieldFromPropertySignature_cons stru prop c cs h, h, ih]
    | indexSignature k => simpa [createStructMembers, propertyNamesNonEmpty] using ih stru
    | other k => simpa [createStructMembers, propertyNamesNonEmpty] using ih stru

theorem createStruct_isSome (name leadingComment : GoString) (members : List Signature) :
    (createStruct name leadingComment members).isSome = propertyNamesNonEmpty members := by
  unfold createStruct
  exact createStructMembers_isSome _ members

theorem createStructMembers_withoutIndexSignatures (stru : Struct) (members : List Signature) :
    createStructMembers stru members
      = createStructMembers stru (withoutIndexSignatures members) := by
  induction members generalizing stru with
  | nil => rfl
  | cons m rest ih =>
    cases m with
    | propertySignature prop =>
      simp only [withoutIndexSignatures, List.filter, Signature.isIndexSignature, Bool.not_false,
        createStructMembers]
      cases addFieldFromPropertySignature stru prop with
      | none => rfl
      | some s1 => exact ih s1
    | indexSignature k =>
      simp only [withoutIndexSignatures, List.filter, Signature.isIndexSignature, Bool.not_true,
        createStructMembers]
      exact ih stru
    | other k =>
      simp only [withoutIndexSignatures, List.filter, Signature.isIndexSignature, Bool.not_false,
        createStructMembers]
      exact ih stru

theorem createStructMembers_frame (stru s : Struct) (members : List Signature)
    (h : createStructMembers stru members = some s) :
    s.Name = stru.Name ∧ s.Doc = stru.Doc ∧ s.Embeds = stru.Embeds ∧
      s.CustomData = stru.CustomData := by
  induction members generalizing stru with
  | nil =>
    simp only [createStructMembers, Option.some.injEq] at h
    subst h; exact ⟨rfl, rfl, rfl, rfl⟩
  | cons m rest ih =>
    cases m with
    | propertySignature prop =>
      cases hn : prop.Name.Text with
      | nil =>
        simp [createStructMembers, addFieldFromPropertySignature_nil stru prop hn] at h
      | cons c cs =>
        simp only [createStructMembers, addFieldFromPropertySignature_cons stru prop c cs hn] at h
        have h2 := ih _ h
        exact h2
    | indexSignature k => exact ih stru (by simpa [createStructMembers] using h)
    | other k => exact ih stru (by simpa [createStructMembers] using h)

theorem createStruct_embeds (name leadingComment : GoString) (members : List Signature)
    (s : Struct) (h : createStruct name leadingComment members = some s) : s.Embeds = [] := by
  unfold createStruct at h
  have hf := (createStructMembers_frame _ s members h).2.2.1
  rw [hf]
  split <;> rfl

theorem appendHeritageTypes_eq (stru : Struct) (ts : List ExpressionWithTypeArguments) :
    appendHeritageTypes stru ts
      = { stru with Embeds := stru.Embeds ++ ts.map fun t => t.Expression.Text } := by
  induction ts generalizing stru with
  | nil => simp [appendHeritageTypes]
  | cons t ts ih => simp [appendHeritageTypes, ih]

theorem appendHeritageClauses_eq (stru : Struct) (clauses : List HeritageClause) :
    appendHeritageClauses stru clauses
      = { stru with Embeds := stru.Embeds ++ heritageNames clauses } := by
  induction clauses generalizing stru with
  | nil => simp [appendHeritageClauses, heritageNames]
  | cons h hs ih =>
    simp [appendHeritageClauses, ih, appendHeritageTypes_eq, heritageNames]

theorem handleDeclarations_append (data : TemplateData) (ds es : List Declaration) :
    handleDeclarations data (ds ++ es)
      = (handleDeclarations data ds).bind fun data1 => handleDeclarations data1 es := by
  induction ds generalizing data with
  | nil => rfl
  | cons decl rest ih =>
    simp only [List.cons_append, handleDeclarations]
    cases handleDeclaration data decl with
    | none => rfl
    | some data1 => exact ih data1

mutual
theorem inspectSubNode_eq (node : SubNode) :
    inspectSubNode node = if subNodeNonNil node then some () else none := by
  cases node with
  | node k children =>
    simp only [inspectSubNode, subNodeNonNil]
    exact inspectSubNodes_eq children
  | nilNode => rfl
theorem inspectSubNodes_eq (nodes : List SubNode) :
    inspectSubNodes nodes = if subNodesNonNil nodes then some () else none := by
  cases nodes with
  | nil => rfl
  | cons node rest =>
    simp only [inspectSubNodes, subNodesNonNil]
    rw [inspectSubNode_eq node]
    by_cases h : subNodeNonNil node = true
    · rw [if_pos h, inspectSubNodes_eq rest]
      simp [h]
    · rw [if_neg h]
      simp [h]
end

mutual
theorem inspectNode_eq (data : TemplateData) (node : Node) :
    inspectNode data node
      = if nodeNonNil node then handleDeclarations data (declarationsOfNode node)
        else none := by
  cases node with
  | typeAliasDeclaration n children =>
    simp only [inspectNode, declarationsOfNode, handleDeclarations, handleDeclaration,
      nodeNonNil, inspectSubNodes_eq]
    cases handleTypeAliasDeclaration data n <;> cases subNodesNonNil children <;> rfl
  | interfaceDeclaration n children =>
    simp only [inspectNode, declarationsOfNode, handleDeclarations, handleDeclaration,
      nodeNonNil, inspectSubNodes_eq]
    cases handleInterfaceDeclaration data n <;> cases subNodesNonNil children <;> rfl
  | other k children =>
    simp only [inspectNode, declarationsOfNode, nodeNonNil]
    exact inspectNodes_eq data children
  | nilNode => rfl
theorem inspectNodes_eq (data : TemplateData) (nodes : List Node) :
    inspectNodes data nodes
      = if nodesNonNil nodes then handleDeclarations data (declarationsOfNodes nodes)
        else none := by
  cases nodes with
  | nil => rfl
  | cons node rest =>
    simp only [inspectNodes, declarationsOfNodes, handleDeclarations_append, nodesNonNil]
    rw [inspectNode_eq data node]
    cases nodeNonNil node with
    | false => rfl
    | true =>
      simp only [if_true, Bool.true_and]
      cases handleDeclarations data (declarationsOfNode node) with
      | none => cases nodesNonNil rest <;> rfl
      | some data1 => exact inspectNodes_eq data1 rest
end

theorem handleDeclaration_some (data d : TemplateData) (decl : Declaration)
    (h : handleDeclaration data decl = some d) :
    d = { data with
          Structs := data.Structs ++ (structOfDeclaration decl).toList
          TypeAliases := data.TypeAliases ++ (typeAliasOfDeclaration decl).toList } := by
  cases decl with
  | interface n =>
    simp only [handleDeclaration, handleInterfaceDeclaration] at h
    cases hc : createStruct n.Name.Text n.LeadingComment n.Members with
    | none => simp [hc] at h
    | some s =>
      simp only [hc, Option.some.injEq] at h
      subst h
      simp [structOfDeclaration, typeAliasOfDeclaration, hc, appendHeritageClauses_eq,
        createStruct_embeds _ _ _ s hc]
  | typeAlias n =>
    simp only [handleDeclaration, handleTypeAliasDeclaration] at h
    simp only [structOfDeclaration, typeAliasOfDeclaration]
    cases hT : n.Type_ with
    | typeLiteral ms =>
      simp only [hT] at h
      cases hc : createStruct n.Name.Text n.LeadingComment ms with
      | none => simp [hc] at h
      | some s => simp only [hc, Option.some.injEq] at h; subst h; simp [hc]
    | typeReference tn =>
      cases tn with
      | identifier t => simp only [hT, Option.some.injEq] at h; subst h; simp
      | typeLiteral ms =>
        simp only [hT] at h
        cases hc : createStruct n.Name.Text n.LeadingComment ms with
        | none => simp [hc] at h
        | some s => simp only [hc, Option.some.injEq] at h; subst h; simp [hc]
      | other k => simp only [hT, Option.some.injEq] at h; subst h; simp
    | other k => simp only [hT, Option.some.injEq] at h; subst h; simp

theorem handleDeclaration_isSome (data : TemplateData) (decl : Declaration) :
    (handleDeclaration data decl).isSome = decl.namesNonEmpty := by
  cases decl with
  | interface n =>
    simp only [handleDeclaration, handleInterfaceDeclaration, Declaration.namesNonEmpty,
      ← createStruct_isSome n.Name.Text n.LeadingComment n.Members]
    cases createStruct n.Name.Text n.LeadingComment n.Members <;> rfl
  | typeAlias n =>
    simp only [handleDeclaration, handleTypeAliasDeclaration, Declaration.namesNonEmpty]
    cases hT : n.Type_ with
    | typeLiteral ms =>
      simp only [← createStruct_isSome n.Name.Text n.LeadingComment ms]
      cases createStruct n.Name.Text n.LeadingComment ms <;> rfl
    | typeReference tn =>
      cases tn with
      | identifier t => rfl
      | typeLiteral ms =>
        simp only [← createStruct_isSome n.Name.Text n.LeadingComment ms]
        cases createStruct n.Name.Text n.LeadingComment ms <;> rfl
      | other k => rfl
    | other k => rfl

theorem handleDeclarations_some (data d : TemplateData) (ds : List Declaration)
    (h : handleDeclarations data ds = some d) :
    d = { data with
          Structs := data.Structs ++ ds.filterMap structOfDeclaration
          TypeAliases := data.TypeAliases ++ ds.filterMap typeAliasOfDeclaration } := by
  induction ds generalizing data with
  | nil =>
    simp only [handleDeclarations, Option.some.injEq] at h
    subst h; simp
  | cons decl rest ih =>
    simp only [handleDeclarations] at h
    cases h1 : handleDeclaration data decl with
    | none => simp [h1] at h
    | some data1 =>
      simp only [h1] at h
      have e1 := handleDeclaration_some data data1 decl h1
      have e2 := ih data1 h
      rw [e2, e1]
      cases hs : structOfDeclaration decl <;> cases ha : typeAliasOfDeclaration decl <;>
        simp [List.filterMap_cons, hs, ha]

theorem handleDeclarations_isSome (data : TemplateData) (ds : List Declaration) :
    (handleDeclarations data ds).isSome = ds.all Declaration.namesNonEmpty := by
  induction ds generalizing data with
  | nil => rfl
  | cons decl rest ih =>
    simp only [handleDeclarations, List.all_cons, ← handleDeclaration_isSome data decl]
    cases handleDeclaration data decl with
    | none => rfl
    | some data1 => simpa using ih data1

theorem parseSourceFile_some (defaultPackageName : GoString) (sourceFile : SourceFile)
    (hnil : nodesNonNil sourceFile.Statements = true)
    (hnames : (declarationsOf sourceFile).all Declaration.namesNonEmpty = true) :
    parseSourceFile defaultPackageName sourceFile
      = some
          ({ SkipHeader := false
             PackageName := defaultPackageName
             Structs := (declarationsOf sourceFile).filterMap structOfDeclaration
             TypeAliases := (declarationsOf sourceFile).filterMap typeAliasOfDeclaration
             ConstGroups := [] }, none) := by
  unfold parseSourceFile
  simp only [inspectNodes_eq, hnil, if_true]
  have hs := handleDeclarations_isSome
    { PackageName := defaultPackageName, SkipHeader := false, Structs := [], TypeAliases := [],
      ConstGroups := [] } (declarationsOfNodes sourceFile.Statements)
  rw [show declarationsOfNodes sourceFile.Statements = declarationsOf sourceFile from rfl,
    hnames] at hs
  obtain ⟨d, hd⟩ := Option.isSome_iff_exists.mp hs
  rw [show declarationsOfNodes sourceFile.Statements = declarationsOf sourceFile from rfl, hd]
  have e := handleDeclarations_some _ d _ hd
  rw [e]
  simp

theorem declarationsOfNodes_append (xs ys : List Node) :
    declarationsOfNodes (xs ++ ys) = declarationsOfNodes xs ++ declarationsOfNodes ys := by
  induction xs with
  | nil => rfl
  | cons x rest ih => simp [declarationsOfNodes, ih]

theorem nodesNonNil_append (xs ys : List Node) :
    nodesNonNil (xs ++ ys) = (nodesNonNil xs && nodesNonNil ys) := by
  induction xs with
  | nil => rfl
  | cons x rest ih => simp [nodesNonNil, ih, Bool.and_assoc]

theorem handleDeclarations_swap (data : TemplateData) (node : InterfaceDeclaration)
    (N R : Identifier) (C : GoString) (rest : List Declaration) :
    handleDeclarations data
        (.interface node :: .typeAlias ⟨N, .typeReference (.identifier R), C⟩ :: rest)
      = handleDeclarations data
          (.typeAlias ⟨N, .typeReference (.identifier R), C⟩ :: .interface node :: rest) := by
  simp only [handleDeclarations, handleDeclaration, handleInterfaceDeclaration,
    handleTypeAliasDeclaration]
  cases createStruct node.Name.Text node.LeadingComment node.Members <;> rfl

theorem parseSourceFile_swap (defaultPackageName : GoString) (before after : List Node)
    (node : InterfaceDeclaration) (below1 below2 : List SubNode) (N R : Identifier)
    (C : GoString) :
    parseSourceFile defaultPackageName
        ⟨before ++ [.interfaceDeclaration node below1,
          .typeAliasDeclaration ⟨N, .typeReference (.identifier R), C⟩ below2] ++ after⟩
      = parseSourceFile defaultPackageName
          ⟨before ++ [.typeAliasDeclaration ⟨N, .typeReference (.identifier R), C⟩ below2,
            .interfaceDeclaration node below1] ++ after⟩ := by
  unfold parseSourceFile
  simp only [inspectNodes_eq, declarationsOfNodes_append, nodesNonNil_append,
    handleDeclarations_append, List.append_assoc, declarationsOfNodes, declarationsOfNode,
    nodesNonNil, nodeNonNil, List.cons_append, List.nil_append, List.singleton_append,
    List.append_nil, Bool.and_true]
  cases nodesNonNil before <;> cases subNodesNonNil below1 <;> cases subNodesNonNil below2 <;>
    cases nodesNonNil after <;> try rfl
  simp only [Bool.and_self, if_true]
  cases handleDeclarations
      { PackageName := defaultPackageName, SkipHeader := false, Structs := [],
        TypeAliases := [], ConstGroups := [] } (declarationsOfNodes before) with
  | none => rfl
  | some d =>
    simp only [Option.some_bind]
    rw [handleDeclarations_swap]

theorem applyMixinsLoop_append (data : TemplateData) (ms ns : List Mixin) :
    applyMixinsLoop data (ms ++ ns) = applyMixinsLoop (applyMixinsLoop data ms) ns := by
  induction ms generalizing data with
  | nil => rfl
  | cons m rest ih => exact ih (m data)

theorem stringsSplitNewline_ne_nil (s : GoString) : stringsSplitNewline s ≠ [] := by
  cases s with
  | nil => simp [stringsSplitNewline]
  | cons c cs =>
    unfold stringsSplitNewline
    split
    · simp
    · split <;> simp

theorem stringsSplitNewline_cons (c : Nat) (cs : GoString) (hc : c ≠ 10) :
    ∃ l ls, stringsSplitNewline cs = l :: ls ∧
      stringsSplitNewline (c :: cs) = (c :: l) :: ls := by
  cases h : stringsSplitNewline cs with
  | nil => exact absurd h (stringsSplitNewline_ne_nil cs)
  | cons l ls =>
    refine ⟨l, ls, rfl, ?_⟩
    rw [stringsSplitNewline]
    simp [hc, h]

theorem stringsSplitNewline_no_newline (s : GoString) :
    ∀ l ∈ stringsSplitNewline s, 10 ∉ l := by
  induction s with
  | nil => simp [stringsSplitNewline]
  | cons c cs ih =>
    by_cases hc : c = 10
    · rw [stringsSplitNewline]
      simp only [hc, if_true, List.mem_cons]
      rintro l (rfl | hl)
      · simp
      · exact ih l hl
    · obtain ⟨l, ls, h1, h2⟩ := stringsSplitNewline_cons c cs hc
      rw [h2]
      rw [h1] at ih
      intro x hx
      rcases List.mem_cons.mp hx with rfl | hx
      · intro hmem
        rcases List.mem_cons.mp hmem with h10 | h10
        · exact hc h10.symm
        · exact ih l (List.mem_cons_self _ _) h10
      · exact ih x (List.mem_cons_of_mem _ hx)

theorem stringsJoinNewline_cons_cons (c : Nat) (l : GoString) (ls : List GoString) :
    stringsJoinNewline ((c :: l) :: ls) = c :: stringsJoinNewline (l :: ls) := by
  cases ls with
  | nil => rfl
  | cons l2 ls => rfl

theorem stringsJoinNewline_split (s : GoString) :
    stringsJoinNewline (stringsSplitNewline s) = s := by
  induction s with
  | nil => rfl
  | cons c cs ih =>
    by_cases hc : c = 10
    · rw [stringsSplitNewline]
      simp only [hc, if_true]
      cases h : stringsSplitNewline cs with
      | nil => exact absurd h (stringsSplitNewline_ne_nil cs)
      | cons l ls =>
        rw [h] at ih
        simp [stringsJoinNewline, ih]
    · obtain ⟨l, ls, h1, h2⟩ := stringsSplitNewline_cons c cs hc
      rw [h2, stringsJoinNewline_cons_cons, ← h1, ih]

theorem leadingCommentDoc_split (C : GoString) :
    LeadingCommentDoc C (if C ≠ [] then stringsSplitNewline C else []) := by
  constructor
  · intro h; simp [h]
  · intro h
    rw [if_pos h]
    exact ⟨rfl, stringsSplitNewline_ne_nil C, stringsSplitNewline_no_newline C,
      stringsJoinNewline_split C⟩

theorem createStruct_doc (name leadingComment : GoString) (members : List Signature)
    (s : Struct) (h : createStruct name leadingComment members = some s) :
    s.Doc = if leadingComment ≠ [] then stringsSplitNewline leadingComment else [] := by
  unfold createStruct at h
  have hf := (createStructMembers_frame _ s members h).2.1
  rw [hf]
  split <;> rfl

theorem createTypeAlias_doc (name referencedName leadingComment : GoString) :
    (createTypeAlias name referencedName leadingComment).Doc
      = if leadingComment ≠ [] then stringsSplitNewline leadingComment else [] := by
  unfold createTypeAlias
  split <;> rfl

theorem createStructMembers_fields (stru s : Struct) (members : List Signature)
    (h : createStructMembers stru members = some s) :
    ∃ fs : List Field, s.Fields = stru.Fields ++ fs ∧
      List.Forall₂ FieldBuiltFrom fs (propertySignaturesOf members) := by
  induction members generalizing stru with
  | nil =>
    simp only [createStructMembers, Option.some.injEq] at h
    subst h
    exact ⟨[], by simp, List.Forall₂.nil⟩
  | cons m rest ih =>
    cases m with
    | propertySignature prop =>
      cases hn : prop.Name.Text with
      | nil =>
        simp [createStructMembers, addFieldFromPropertySignature_nil stru prop hn] at h
      | cons c cs =>
        simp only [createStructMembers, addFieldFromPropertySignature_cons stru prop c cs hn] at h
        obtain ⟨fs, hfs, hall⟩ := ih _ h
        refine ⟨_ :: fs, ?_, List.Forall₂.cons
          ⟨fun stru1 => addFieldFromPropertySignature_cons stru1 prop c cs hn, hn.symm⟩ hall⟩
        rw [hfs]
        simp
    | indexSignature k =>
      exact ih stru (by simpa [createStructMembers] using h)
    | other k =>
      exact ih stru (by simpa [createStructMembers] using h)

theorem fieldBuiltFrom_jsonNames (fs : List Field) (props : List PropertySignature)
    (h : List.Forall₂ FieldBuiltFrom fs props) :
    fs.map (fun f => f.JSONName) = props.map fun prop => prop.Name.Text := by
  induction h with
  | nil => rfl
  | cons hfp _ ih => simp [hfp.2, ih]

/-! ## Field construction -/

/-- C1: for a property signature whose member name is `c :: rest` with `c` an ASCII letter,
`addFieldFromPropertySignature` returns the struct with one field appended; the field's
JSONName is the member name verbatim and its Name is `u :: rest`, where `u` is the upper-case
letter of `c` (`c` itself when `c` is upper-case, `c - 32` when lower-case) and `rest` is
unchanged. -/
theorem addFieldFromPropertySignature_names (stru : Struct) (prop : PropertySignature)
    (c : Nat) (rest : GoString) (hname : prop.Name.Text = c :: rest)
    (hletter : (65 ≤ c ∧ c ≤ 90) ∨ (97 ≤ c ∧ c ≤ 122)) :
    ∃ (f : Field) (u : Nat),
      addFieldFromPropertySignature stru prop
          = some { stru with Fields := stru.Fields ++ [f] } ∧
        f.JSONName = prop.Name.Text ∧
        f.Name = u :: rest ∧
        (65 ≤ u ∧ u ≤ 90) ∧
        ((65 ≤ c ∧ c ≤ 90) → u = c) ∧
        ((97 ≤ c ∧ c ≤ 122) → u + 32 = c) := by
  have hc : c < 128 := by omega
  refine ⟨_, asciiToUpper c, addFieldFromPropertySignature_cons stru prop c rest hname,
    hname.symm, ?_, ?_, ?_, ?_⟩
  · simp [stringsToUpper1, hc]
  · unfold asciiToUpper; split <;> omega
  · intro h; unfold asciiToUpper; split <;> omega
  · intro h; unfold asciiToUpper; split <;> omega

/-- Witness for C1: the member `bar` yields Name `Bar` and JSONName `bar`. -/
theorem addFieldFromPropertySignature_names_witness :
    (∃ (f : Field) (u : Nat),
      addFieldFromPropertySignature fooStruct barProperty
          = some { fooStruct with Fields := fooStruct.Fields ++ [f] } ∧
        f.JSONName = barProperty.Name.Text ∧
        f.Name = u :: go "ar" ∧
        (65 ≤ u ∧ u ≤ 90) ∧
        ((65 ≤ 98 ∧ 98 ≤ 90) → u = 98) ∧
        ((97 ≤ 98 ∧ 98 ≤ 122) → u + 32 = 98)) ∧
    (addFieldFromPropertySignature fooStruct barProperty).map
        (fun s => s.Fields.map fun f => (f.Name, f.JSONName))
      = some [(go "Bar", go "bar")] :=
  ⟨addFieldFromPropertySignature_names fooStruct barProperty 98 (go "ar") (by decide)
    (by decide), by decide⟩

/-- C2: for every property signature on which a field is built (the member name is not
empty), `addFieldFromPropertySignature` returns the struct with one field appended whose
OmitEmpty and IsPointer both equal the member's QuestionToken. -/
theorem addFieldFromPropertySignature_optional (stru : Struct) (prop : PropertySignature)
    (hname : prop.Name.Text ≠ []) :
    ∃ f : Field,
      addFieldFromPropertySignature stru prop
          = some { stru with Fields := stru.Fields ++ [f] } ∧
        f.OmitEmpty = prop.QuestionToken ∧ f.IsPointer = prop.QuestionToken := by
  cases h : prop.Name.Text with
  | nil => exact absurd h hname
  | cons c rest =>
    exact ⟨_, addFieldFromPropertySignature_cons stru prop c rest h, rfl, rfl⟩

/-- Witness for C2: the optional member `bar?` and its non-optional twin. -/
theorem addFieldFromPropertySignature_optional_witness :
    (∃ f : Field,
      addFieldFromPropertySignature fooStruct barProperty
          = some { fooStruct with Fields := fooStruct.Fields ++ [f] } ∧
        f.OmitEmpty = true ∧ f.IsPointer = true) ∧
    (∃ f : Field,
      addFieldFromPropertySignature fooStruct { barProperty with QuestionToken := false }
          = some { fooStruct with Fields := fooStruct.Fields ++ [f] } ∧
        f.OmitEmpty = false ∧ f.IsPointer = false) :=
  ⟨addFieldFromPropertySignature_optional fooStruct barProperty (by decide),
   addFieldFromPropertySignature_optional fooStruct { barProperty with QuestionToken := false }
     (by decide)⟩

/-- C3: for every document, SkipOptionalPointer keeps the header flag, the package name, the
type aliases and the const groups; the structs after correspond one to one, in order, to the
structs before, each with the same Name, Doc, Embeds and CustomData and with fields that
correspond one to one, in order, each with IsPointer false and the same OmitEmpty, Name,
JSONName, Type, Doc and CustomData. -/
theorem SkipOptionalPointer_frame (data : TemplateData) :
    (SkipOptionalPointer data).SkipHeader = data.SkipHeader ∧
    (SkipOptionalPointer data).PackageName = data.PackageName ∧
    (SkipOptionalPointer data).TypeAliases = data.TypeAliases ∧
    (SkipOptionalPointer data).ConstGroups = data.ConstGroups ∧
    (SkipOptionalPointer data).Structs.length = data.Structs.length ∧
    List.Forall₂ StructCleared (SkipOptionalPointer data).Structs data.Structs := by
  have h := clearIsPointerStructs_cleared data.Structs
  exact ⟨rfl, rfl, rfl, rfl, h.length_eq, h⟩

/-- C4: for a property signature with a non-empty name whose declared type is a type
reference naming the identifier `t`, the appended field's Type is `bool` when `t` is exactly
`boolean` and the text of `t` verbatim otherwise. -/
theorem addFieldFromPropertySignature_typeReference (stru : Struct) (prop : PropertySignature)
    (t : Identifier) (hname : prop.Name.Text ≠ [])
    (htype : prop.Type_ = .typeReference (.identifier t)) :
    ∃ f : Field,
      addFieldFromPropertySignature stru prop
          = some { stru with Fields := stru.Fields ++ [f] } ∧
        (t.Text = go "boolean" → f.Type_ = go "bool") ∧
        (t.Text ≠ go "boolean" → f.Type_ = t.Text) := by
  cases h : prop.Name.Text with
  | nil => exact absurd h hname
  | cons c rest =>
    refine ⟨_, addFieldFromPropertySignature_cons stru prop c rest h, ?_, ?_⟩
    · intro hb; simp [htype, fieldTypeOf, hb]
    · intro hb; simp [htype, fieldTypeOf, hb]

/-- Witness for C4: `string` passes through, `boolean` becomes `bool`. -/
theorem addFieldFromPropertySignature_typeReference_witness :
    (∃ f : Field,
      addFieldFromPropertySignature fooStruct barProperty
          = some { fooStruct with Fields := fooStruct.Fields ++ [f] } ∧
        (go "string" = go "boolean" → f.Type_ = go "bool") ∧
        (go "string" ≠ go "boolean" → f.Type_ = go "string")) ∧
    (∃ f : Field,
      addFieldFromPropertySignature fooStruct
          { barProperty with Type_ := .typeReference (.identifier ⟨go "boolean"⟩) }
          = some { fooStruct with Fields := fooStruct.Fields ++ [f] } ∧
        (go "boolean" = go "boolean" → f.Type_ = go "bool") ∧
        (go "boolean" ≠ go "boolean" → f.Type_ = go "boolean")) :=
  ⟨addFieldFromPropertySignature_typeReference fooStruct barProperty ⟨go "string"⟩
     (by decide) rfl,
   addFieldFromPropertySignature_typeReference fooStruct
     { barProperty with Type_ := .typeReference (.identifier ⟨go "boolean"⟩) }
     ⟨go "boolean"⟩ (by decide) rfl⟩

/-- C5: for a property signature with a non-empty name whose declared type is not a type
reference naming an identifier, a field is still appended and its Type is `any`. -/
theorem addFieldFromPropertySignature_untyped (stru : Struct) (prop : PropertySignature)
    (hname : prop.Name.Text ≠ [])
    (hshape : ∀ t : Identifier, prop.Type_ ≠ .typeReference (.identifier t)) :
    ∃ f : Field,
      addFieldFromPropertySignature stru prop
          = some { stru with Fields := stru.Fields ++ [f] } ∧
        f.Type_ = go "any" := by
  cases h : prop.Name.Text with
  | nil => exact absurd h hname
  | cons c rest =>
    refine ⟨_, addFieldFromPropertySignature_cons stru prop c rest h, ?_⟩
    cases hT : prop.Type_ with
    | typeReference tn =>
      cases tn with
      | identifier t => exact absurd hT (hshape t)
      | typeLiteral ms => simp [fieldTypeOf]
      | other k => simp [fieldTypeOf]
    | typeLiteral ms => simp [fieldTypeOf]
    | other k => simp [fieldTypeOf]

/-- Witness for C5: an inline object type and a union-like `other` type both give `any`. -/
theorem addFieldFromPropertySignature_untyped_witness :
    (∃ f : Field,
      addFieldFromPropertySignature fooStruct { barProperty with Type_ := .typeLiteral [] }
          = some { fooStruct with Fields := fooStruct.Fields ++ [f] } ∧
        f.Type_ = go "any") ∧
    (∃ f : Field,
      addFieldFromPropertySignature fooStruct
          { barProperty with Type_ := .typeReference (.other 0) }
          = some { fooStruct with Fields := fooStruct.Fields ++ [f] } ∧
        f.Type_ = go "any") :=
  ⟨addFieldFromPropertySignature_untyped fooStruct { barProperty with Type_ := .typeLiteral [] }
     (by decide) (fun _ h => by cases h),
   addFieldFromPropertySignature_untyped fooStruct
     { barProperty with Type_ := .typeReference (.other 0) }
     (by decide) (fun _ h => by cases h)⟩

/-- C6 (the code at the failing input): on a property signature whose member name is the
empty text the slice `prop.Name.Text[:1]` aborts, so `addFieldFromPropertySignature` and
`createStruct` return no record. -/
theorem createStruct_empty_member_name_aborts :
    addFieldFromPropertySignature fooStruct { barProperty with Name := ⟨go ""⟩ } = none ∧
    createStruct (go "Foo") (go "My type")
      [.propertySignature { barProperty with Name := ⟨go ""⟩ }] = none := by
  decide

/-! ## Struct construction and declaration handling -/

/-- C7 (counterexample): the member list `[k: string]: T; bar?: string` contains an index
signature, yet `createStruct` returns for it exactly the record it returns for the list with
the index signature removed, with an empty CustomData: the two are not distinguishable. -/
theorem createStruct_indexSignature_indistinguishable :
    ([Signature.indexSignature 0, .propertySignature barProperty].any
        Signature.isIndexSignature = true) ∧
    createStruct (go "Foo") (go "My type")
        [.indexSignature 0, .propertySignature barProperty]
      = createStruct (go "Foo") (go "My type")
          (withoutIndexSignatures [.indexSignature 0, .propertySignature barProperty]) ∧
    createStruct (go "Foo") (go "My type")
        [.indexSignature 0, .propertySignature barProperty]
      = some
          { Name := go "Foo", Doc := [go "My type"], Embeds := [], CustomData := [],
            Fields :=
              [{ Name := go "Bar", Doc := [go "My field"], Type_ := go "string",
                 IsPointer := true, JSONName := go "bar", OmitEmpty := true,
                 CustomData := [] }] } := by
  decide

/-- C7 (amended): for every name, comment and member list, `createStruct` skips index
signatures: its result equals its result on the member list with the index signatures
removed. -/
theorem createStruct_skips_indexSignatures (name leadingComment : GoString)
    (members : List Signature) :
    createStruct name leadingComment members
      = createStruct name leadingComment (withoutIndexSignatures members) := by
  unfold createStruct
  exact createStructMembers_withoutIndexSignatures _ members

/-- C8: a type alias with name `N`, leading comment `C` and an inline object shape with
members `M` on its right-hand side, given directly as a type literal or as a type reference
whose type name is a type literal, is handled exactly as an interface declaration with the
same `N`, `C`, `M` and no heritage clauses: the document gets the struct `createStruct N C M`
appended to Structs and is otherwise unchanged (TypeAliases included); `createStruct` returns
a struct exactly when no property signature of `M` has an empty name. -/
theorem handleTypeAliasDeclaration_typeLiteral (data : TemplateData) (N : Identifier)
    (C : GoString) (M : List Signature) :
    handleTypeAliasDeclaration data { Name := N, Type_ := .typeLiteral M, LeadingComment := C }
      = handleInterfaceDeclaration data
          { Name := N, HeritageClauses := [], Members := M, LeadingComment := C } ∧
    handleTypeAliasDeclaration data
        { Name := N, Type_ := .typeReference (.typeLiteral M), LeadingComment := C }
      = handleInterfaceDeclaration data
          { Name := N, HeritageClauses := [], Members := M, LeadingComment := C } ∧
    handleInterfaceDeclaration data
        { Name := N, HeritageClauses := [], Members := M, LeadingComment := C }
      = (createStruct N.Text C M).map
          (fun stru => { data with Structs := data.Structs ++ [stru] }) ∧
    (createStruct N.Text C M).isSome = propertyNamesNonEmpty M := by
  refine ⟨?_, ?_, ?_, createStruct_isSome N.Text C M⟩ <;>
    simp only [handleTypeAliasDeclaration, handleInterfaceDeclaration] <;>
    cases createStruct N.Text C M <;> rfl

/-- C9: a type alias whose right-hand side is a type reference naming the identifier `R`
appends exactly one record to the end of TypeAliases, with Name the declared name and Type
the text of `R` verbatim, and leaves the rest of the document unchanged. -/
theorem handleTypeAliasDeclaration_identifier (data : TemplateData) (N R : Identifier)
    (C : GoString) :
    ∃ a : TypeAlias,
      handleTypeAliasDeclaration data
          { Name := N, Type_ := .typeReference (.identifier R), LeadingComment := C }
        = some { data with TypeAliases := data.TypeAliases ++ [a] } ∧
      a.Name = N.Text ∧ a.Type_ = R.Text := by
  refine ⟨createTypeAlias N.Text R.Text C, rfl, ?_, ?_⟩ <;>
    unfold createTypeAlias <;> split <;> rfl

/-- C10: for every interface declaration on which a struct is built (no property signature
has an empty name), `handleInterfaceDeclaration` appends one struct to Structs whose Embeds
is exactly the referenced names of all heritage types, clause by clause in declared order,
with nothing removed and nothing looked up in the document. -/
theorem handleInterfaceDeclaration_embeds (data : TemplateData) (node : InterfaceDeclaration)
    (hnames : propertyNamesNonEmpty node.Members = true) :
    ∃ stru : Struct,
      handleInterfaceDeclaration data node
        = some { data with Structs := data.Structs ++ [stru] } ∧
      stru.Embeds = heritageNames node.HeritageClauses := by
  have hs := createStruct_isSome node.Name.Text node.LeadingComment node.Members
  rw [hnames] at hs
  obtain ⟨s, hs⟩ := Option.isSome_iff_exists.mp hs
  refine ⟨appendHeritageClauses s node.HeritageClauses, ?_, ?_⟩
  · simp [handleInterfaceDeclaration, hs]
  · rw [appendHeritageClauses_eq, createStruct_embeds _ _ _ s hs]
    rfl

/-- Witness for C10: heritage entries `A` then `B`, in one clause or in two, and a repeated
entry, on a document that declares neither. -/
theorem handleInterfaceDeclaration_embeds_witness :
    (∃ stru : Struct,
      handleInterfaceDeclaration ⟨false, go "types", [], [], []⟩
          { Name := ⟨go "Foo"⟩, LeadingComment := [],
            Members := [.propertySignature barProperty],
            HeritageClauses := [⟨[⟨⟨go "A"⟩⟩, ⟨⟨go "B"⟩⟩]⟩] }
        = some { (⟨false, go "types", [], [], []⟩ : TemplateData) with
                 Structs := [] ++ [stru] } ∧
      stru.Embeds = [go "A", go "B"]) ∧
    (∃ stru : Struct,
      handleInterfaceDeclaration ⟨false, go "types", [], [], []⟩
          { Name := ⟨go "Foo"⟩, LeadingComment := [],
            Members := [],
            HeritageClauses := [⟨[⟨⟨go "A"⟩⟩]⟩, ⟨[⟨⟨go "B"⟩⟩, ⟨⟨go "A"⟩⟩]⟩] }
        = some { (⟨false, go "types", [], [], []⟩ : TemplateData) with
                 Structs := [] ++ [stru] } ∧
      stru.Embeds = [go "A", go "B", go "A"]) :=
  ⟨handleInterfaceDeclaration_embeds ⟨false, go "types", [], [], []⟩
     { Name := ⟨go "Foo"⟩, LeadingComment := [],
       Members := [.propertySignature barProperty],
       HeritageClauses := [⟨[⟨⟨go "A"⟩⟩, ⟨⟨go "B"⟩⟩]⟩] } (by decide),
   handleInterfaceDeclaration_embeds ⟨false, go "types", [], [], []⟩
     { Name := ⟨go "Foo"⟩, LeadingComment := [],
       Members := [],
       HeritageClauses := [⟨[⟨⟨go "A"⟩⟩]⟩, ⟨[⟨⟨go "B"⟩⟩, ⟨⟨go "A"⟩⟩]⟩] } (by decide)⟩

/-! ## The declaration walker, the customization pipeline and template dispatch -/

/-- C11 (counterexample): the sources `interface A {}; type B = C` and
`type B = C; interface A {}` differ only by swapping a struct-producing declaration and a
plain type alias, and `parseSourceFile` returns the same document for both. -/
theorem parseSourceFile_swap_same_document :
    parseSourceFile DefaultPackageName
        ⟨[.interfaceDeclaration interfaceA interfaceAChildren,
          .typeAliasDeclaration aliasB aliasBChildren]⟩
      = parseSourceFile DefaultPackageName
          ⟨[.typeAliasDeclaration aliasB aliasBChildren,
            .interfaceDeclaration interfaceA interfaceAChildren]⟩ ∧
    parseSourceFile DefaultPackageName
        ⟨[.interfaceDeclaration interfaceA interfaceAChildren,
          .typeAliasDeclaration aliasB aliasBChildren]⟩
      = some
          ({ SkipHeader := false
             PackageName := go "types"
             Structs :=
               [{ Name := go "A", Doc := [], Embeds := [], Fields := [], CustomData := [] }]
             TypeAliases := [{ Name := go "B", Doc := [], Type_ := go "C", CustomData := [] }]
             ConstGroups := [] }, none) := by
  decide

/-- C11 (amended): for every source file on which the walk completes (the tree has no nil
child node and no property signature handed to `createStruct` has an empty name),
`parseSourceFile` returns a document whose Structs are the structs of the struct-producing
declarations in their lexical (pre-order) order and whose TypeAliases are the records of the
plain type-alias declarations in their lexical order; and swapping an interface declaration
with the plain type alias that follows it, in any source, gives the same result. -/
theorem parseSourceFile_order_within_kind (defaultPackageName : GoString)
    (sourceFile : SourceFile)
    (hnil : nodesNonNil sourceFile.Statements = true)
    (hnames : (declarationsOf sourceFile).all Declaration.namesNonEmpty = true)
    (before after : List Node) (node : InterfaceDeclaration) (below1 below2 : List SubNode)
    (N R : Identifier) (C : GoString) :
    (∃ data : TemplateData,
      parseSourceFile defaultPackageName sourceFile = some (data, none) ∧
      data.Structs = (declarationsOf sourceFile).filterMap structOfDeclaration ∧
      data.TypeAliases = (declarationsOf sourceFile).filterMap typeAliasOfDeclaration) ∧
    parseSourceFile defaultPackageName
        ⟨before ++ [.interfaceDeclaration node below1,
          .typeAliasDeclaration ⟨N, .typeReference (.identifier R), C⟩ below2] ++ after⟩
      = parseSourceFile defaultPackageName
          ⟨before ++ [.typeAliasDeclaration ⟨N, .typeReference (.identifier R), C⟩ below2,
            .interfaceDeclaration node below1] ++ after⟩ :=
  ⟨⟨_, parseSourceFile_some defaultPackageName sourceFile hnil hnames, rfl, rfl⟩,
   parseSourceFile_swap defaultPackageName before after node below1 below2 N R C⟩

/-- Witness for C11 (amended): two interfaces around a type alias, one of them inside
another node. -/
theorem parseSourceFile_order_within_kind_witness :
    (∃ data : TemplateData,
      parseSourceFile DefaultPackageName
          ⟨[.interfaceDeclaration interfaceA interfaceAChildren,
            .other 0 [.typeAliasDeclaration aliasB aliasBChildren,
              .interfaceDeclaration { interfaceA with Name := ⟨go "D"⟩ }
                interfaceAChildren]]⟩
        = some (data, none) ∧
      data.Structs
        = [{ Name := go "A", Doc := [], Embeds := [], Fields := [], CustomData := [] },
           { Name := go "D", Doc := [], Embeds := [], Fields := [], CustomData := [] }] ∧
      data.TypeAliases = [{ Name := go "B", Doc := [], Type_ := go "C", CustomData := [] }]) ∧
    parseSourceFile DefaultPackageName
        ⟨[] ++ [.interfaceDeclaration interfaceA interfaceAChildren,
          .typeAliasDeclaration ⟨⟨go "B"⟩, .typeReference (.identifier ⟨go "C"⟩), []⟩
            aliasBChildren] ++ []⟩
      = parseSourceFile DefaultPackageName
          ⟨[] ++ [.typeAliasDeclaration ⟨⟨go "B"⟩, .typeReference (.identifier ⟨go "C"⟩), []⟩
              aliasBChildren,
            .interfaceDeclaration interfaceA interfaceAChildren] ++ []⟩ :=
  parseSourceFile_order_within_kind DefaultPackageName
    ⟨[.interfaceDeclaration interfaceA interfaceAChildren,
      .other 0 [.typeAliasDeclaration aliasB aliasBChildren,
        .interfaceDeclaration { interfaceA with Name := ⟨go "D"⟩ } interfaceAChildren]]⟩
    (by decide) (by decide)
    [] [] interfaceA interfaceAChildren aliasBChildren ⟨go "B"⟩ ⟨go "C"⟩ []

/-- C13: `applyMixins` is the left-to-right fold of the generator's mixins over the document:
the last mixin is applied to the state left by all the ones before it, three mixins give
`m3 (m2 (m1 d))`; options `WithMixin a` then `WithMixin b` register `a` then `b` after the
mixins already present, and a `SetPackageName` that comes last decides the package name. -/
theorem applyMixins_in_order (g : generator) (data : TemplateData) (a b ms : List Mixin)
    (m m1 m2 m3 : Mixin) (source x y : GoString) :
    g.applyMixins data = g.mixins.foldl (fun d mixin => mixin d) data ∧
    ({ g with mixins := ms ++ [m] } : generator).applyMixins data
      = m (({ g with mixins := ms } : generator).applyMixins data) ∧
    ({ g with mixins := [m1, m2, m3] } : generator).applyMixins data = m3 (m2 (m1 data)) ∧
    (applyOptions g [WithMixin a, WithMixin b]).mixins = g.mixins ++ a ++ b ∧
    (applyOptions (newGenerator source) [WithMixin a, WithMixin b]).applyMixins data
      = applyMixinsLoop (applyMixinsLoop data a) b ∧
    (({ g with mixins := ms ++ [SetPackageName y] } : generator).applyMixins data).PackageName
      = y ∧
    ((applyOptions (newGenerator source)
        [WithMixin [SetPackageName x], WithMixin [SetPackageName y]]).applyMixins
      data).PackageName = y := by
  refine ⟨?_, ?_, rfl, ?_, ?_, ?_, rfl⟩
  · unfold generator.applyMixins
    generalize g.mixins = l
    induction l generalizing data with
    | nil => rfl
    | cons mixin rest ih => exact ih (mixin data)
  · simp only [generator.applyMixins, applyMixinsLoop_append]
    rfl
  · simp [applyOptions, WithMixin]
  · simp only [generator.applyMixins, applyOptions, WithMixin, newGenerator, List.nil_append,
      applyMixinsLoop_append]
  · simp only [generator.applyMixins, applyMixinsLoop_append]
    rfl

/-- C14 (the code on a generator with an override): `createTemplate` returns the same
template set, parsed from the built-in files alone, whatever override file system was
registered with `WithTemplateOverrideFS`. -/
theorem createTemplate_ignores_override {T : Type}
    (ParseFS : FS → GoString → Except GoString T) (templateFS fsys : FS) (g : generator) :
    (WithTemplateOverrideFS fsys g).createTemplate ParseFS templateFS
      = g.createTemplate ParseFS templateFS ∧
    g.createTemplate ParseFS templateFS
      = (newGenerator []).createTemplate ParseFS templateFS := by
  constructor <;> unfold generator.createTemplate <;>
    cases ParseFS templateFS (go "internal/templates/*.tmpl") <;> rfl

/-- C16 (counterexample): with the package variable `DefaultPackageName` assigned `custom`
and no mixin applied, `parseSourceFile` on the source of the package example returns a
document whose PackageName is `custom`, not `types`. -/
theorem parseSourceFile_packageName_follows_variable :
    (parseSourceFile (go "custom") fooSource).map (fun r => (r.1.PackageName, r.2))
      = some (go "custom", none) ∧
    go "custom" ≠ go "types" := by
  decide

/-- C16 (amended): for every value of the variable `DefaultPackageName` and every source file
on which the walk completes (the tree has no nil child node and no property signature handed
to `createStruct` has an empty name), `parseSourceFile` returns a nil error and a document
whose PackageName is the value of the variable and whose SkipHeader is false; SetPackageName
and SkipHeader are the mixins that change the two settings, SkipOptionalPointer changes
neither. -/
theorem parseSourceFile_defaults (defaultPackageName : GoString) (sourceFile : SourceFile)
    (hnil : nodesNonNil sourceFile.Statements = true)
    (hnames : (declarationsOf sourceFile).all Declaration.namesNonEmpty = true) :
    ∃ data : TemplateData,
      parseSourceFile defaultPackageName sourceFile = some (data, none) ∧
      data.PackageName = defaultPackageName ∧ data.SkipHeader = false ∧
      (∀ name : GoString, (SetPackageName name data).PackageName = name) ∧
      (SkipHeader data).SkipHeader = true ∧
      (SkipOptionalPointer data).PackageName = defaultPackageName ∧
      (SkipOptionalPointer data).SkipHeader = false :=
  ⟨_, parseSourceFile_some defaultPackageName sourceFile hnil hnames, rfl, rfl, fun _ => rfl,
    rfl, rfl, rfl⟩

/-- Witness for C16 (amended): the source of the package example, with the variable holding
the value `types` it is initialised to. -/
theorem parseSourceFile_defaults_witness :
    ∃ data : TemplateData,
      parseSourceFile DefaultPackageName fooSource = some (data, none) ∧
      data.PackageName = go "types" ∧ data.SkipHeader = false ∧
      (∀ name : GoString, (SetPackageName name data).PackageName = name) ∧
      (SkipHeader data).SkipHeader = true ∧
      (SkipOptionalPointer data).PackageName = go "types" ∧
      (SkipOptionalPointer data).SkipHeader = false :=
  parseSourceFile_defaults DefaultPackageName fooSource (by decide) (by decide)

/-! ## Fields, names and documentation -/

/-- C12: for every member list on which `createStruct` returns (no property signature has an
empty name), the Fields of the returned record correspond one to one, in order, to the
property signatures of the list in declaration order, each field being the one built from its
property signature; so there are as many fields as property signatures, none for any other
member kind, and the JSONNames are the property names in order. -/
theorem createStruct_fields_in_order (name leadingComment : GoString)
    (members : List Signature) (hnames : propertyNamesNonEmpty members = true) :
    ∃ s : Struct,
      createStruct name leadingComment members = some s ∧
      List.Forall₂ FieldBuiltFrom s.Fields (propertySignaturesOf members) ∧
      s.Fields.length = (propertySignaturesOf members).length ∧
      s.Fields.map (fun f => f.JSONName)
        = (propertySignaturesOf members).map fun prop => prop.Name.Text := by
  have hs := createStruct_isSome name leadingComment members
  rw [hnames] at hs
  obtain ⟨s, hs⟩ := Option.isSome_iff_exists.mp hs
  have hc := hs
  unfold createStruct at hc
  obtain ⟨fs, hfs, hall⟩ := createStructMembers_fields _ s members hc
  have hfields : s.Fields = fs := by
    rw [hfs]
    split <;> rfl
  rw [← hfields] at hall
  exact ⟨s, hs, hall, hall.length_eq, fieldBuiltFrom_jsonNames _ _ hall⟩

/-- Witness for C12: the members `b`, an index signature, `a`, another member kind, `c`. -/
theorem createStruct_fields_in_order_witness :
    ∃ s : Struct,
      createStruct (go "Foo") []
          [.propertySignature { barProperty with Name := ⟨go "b"⟩ }, .indexSignature 0,
           .propertySignature { barProperty with Name := ⟨go "a"⟩ }, .other 0,
           .propertySignature { barProperty with Name := ⟨go "c"⟩ }] = some s ∧
      List.Forall₂ FieldBuiltFrom s.Fields
        [{ barProperty with Name := ⟨go "b"⟩ }, { barProperty with Name := ⟨go "a"⟩ },
         { barProperty with Name := ⟨go "c"⟩ }] ∧
      s.Fields.length = 3 ∧
      s.Fields.map (fun f => f.JSONName) = [go "b", go "a", go "c"] :=
  createStruct_fields_in_order (go "Foo") []
    [.propertySignature { barProperty with Name := ⟨go "b"⟩ }, .indexSignature 0,
     .propertySignature { barProperty with Name := ⟨go "a"⟩ }, .other 0,
     .propertySignature { barProperty with Name := ⟨go "c"⟩ }] (by decide)

/-- C15 (counterexample): the member name `$ref` is a TypeScript identifier, and the Name of
the field built from it is `$ref`, which is not a Go identifier; the member name `é` (bytes
C3 A9) gives a Name that starts with the bytes of U+FFFD followed by the stray byte A9. -/
theorem addFieldFromPropertySignature_dollar_name :
    isTsIdentifier (go "$ref") = true ∧
    (addFieldFromPropertySignature fooStruct { barProperty with Name := ⟨go "$ref"⟩ }).map
        (fun s => s.Fields.map fun f => f.Name) = some [go "$ref"] ∧
    isGoIdentifier (go "$ref") = false ∧
    (addFieldFromPropertySignature fooStruct { barProperty with Name := ⟨go "é"⟩ }).map
        (fun s => s.Fields.map fun f => f.Name) = some [[0xEF, 0xBF, 0xBD, 0xA9]] := by
  decide

/-- C15 (amended): for every property signature whose member name is an ASCII TypeScript
identifier without `$` (a letter or `_`, then letters, digits and `_`), the field is built and
its Name is non-empty and a Go identifier. -/
theorem addFieldFromPropertySignature_go_identifier (stru : Struct) (prop : PropertySignature)
    (hts : isTsIdentifier prop.Name.Text = true) (hdollar : 36 ∉ prop.Name.Text) :
    ∃ f : Field,
      addFieldFromPropertySignature stru prop
          = some { stru with Fields := stru.Fields ++ [f] } ∧
        f.Name ≠ [] ∧ isGoIdentifier f.Name = true := by
  cases h : prop.Name.Text with
  | nil => rw [h] at hts; simp [isTsIdentifier] at hts
  | cons c rest =>
    rw [h] at hts hdollar
    refine ⟨_, addFieldFromPropertySignature_cons stru prop c rest h, ?_, ?_⟩
    · simp [stringsToUpper1]
      split <;> simp
    · simp only [isTsIdentifier, isAsciiLetter, isAsciiDigit, Bool.and_eq_true, Bool.or_eq_true,
        decide_eq_true_eq, beq_iff_eq, List.all_eq_true, List.mem_cons, not_or] at hts hdollar
      obtain ⟨hc, hrest⟩ := hts
      have hc128 : c < 128 := by omega
      simp only [stringsToUpper1, hc128, if_true, List.singleton_append, isGoIdentifier,
        isAsciiLetter, isAsciiDigit, asciiToUpper, Bool.and_eq_true, Bool.or_eq_true,
        decide_eq_true_eq, beq_iff_eq, List.all_eq_true]
      constructor
      · split <;> omega
      · intro d hd
        have h1 := hrest d hd
        have h2 : d ≠ 36 := fun e => hdollar.2 (e ▸ hd)
        omega

/-- Witness for C15 (amended): `bar` gives `Bar`, `_id2` stays `_id2`. -/
theorem addFieldFromPropertySignature_go_identifier_witness :
    (∃ f : Field,
      addFieldFromPropertySignature fooStruct barProperty
          = some { fooStruct with Fields := fooStruct.Fields ++ [f] } ∧
        f.Name ≠ [] ∧ isGoIdentifier f.Name = true) ∧
    (∃ f : Field,
      addFieldFromPropertySignature fooStruct { barProperty with Name := ⟨go "_id2"⟩ }
          = some { fooStruct with Fields := fooStruct.Fields ++ [f] } ∧
        f.Name ≠ [] ∧ isGoIdentifier f.Name = true) :=
  ⟨addFieldFromPropertySignature_go_identifier fooStruct barProperty (by decide) (by decide),
   addFieldFromPropertySignature_go_identifier fooStruct
     { barProperty with Name := ⟨go "_id2"⟩ } (by decide) (by decide)⟩

/-- C17: for every name, leading comment `C` and member list on which `createStruct` returns,
the Doc of the struct from `createStruct` and the Doc of the record from `createTypeAlias` are
both: empty when `C` is empty; otherwise `C` split on line breaks, non-empty, with no line
break inside an element, and joining back to `C` with line breaks. -/
theorem leadingComment_doc (name referencedName C : GoString) (members : List Signature)
    (hnames : propertyNamesNonEmpty members = true) :
    (∃ s : Struct, createStruct name C members = some s ∧ LeadingCommentDoc C s.Doc) ∧
    LeadingCommentDoc C (createTypeAlias name referencedName C).Doc := by
  have hs := createStruct_isSome name C members
  rw [hnames] at hs
  obtain ⟨s, hs⟩ := Option.isSome_iff_exists.mp hs
  refine ⟨⟨s, hs, ?_⟩, ?_⟩
  · rw [createStruct_doc name C members s hs]
    exact leadingCommentDoc_split C
  · rw [createTypeAlias_doc]
    exact leadingCommentDoc_split C

/-- Witness for C17: a two-line comment and no comment. -/
theorem leadingComment_doc_witness :
    ((∃ s : Struct,
        createStruct (go "Foo") (go "My\ntype") [.propertySignature barProperty] = some s ∧
          LeadingCommentDoc (go "My\ntype") s.Doc) ∧
      LeadingCommentDoc (go "My\ntype")
        (createTypeAlias (go "Foo") (go "Bar") (go "My\ntype")).Doc) ∧
    ((∃ s : Struct,
        createStruct (go "Foo") [] [.propertySignature barProperty] = some s ∧
          LeadingCommentDoc [] s.Doc) ∧
      LeadingCommentDoc [] (createTypeAlias (go "Foo") (go "Bar") []).Doc) ∧
    (createStruct (go "Foo") (go "My\ntype") []).map (fun s => s.Doc)
      = some [go "My", go "type"] ∧
    (createStruct (go "Foo") [] []).map (fun s => s.Doc) = some [] :=
  ⟨leadingComment_doc (go "Foo") (go "Bar") (go "My\ntype") [.propertySignature barProperty]
     (by decide),
   leadingComment_doc (go "Foo") (go "Bar") [] [.propertySignature barProperty] (by decide),
   by decide, by decide⟩

/-- C18: for every property signature on which a field is built (the member name is not
empty), the field's Doc comes from one comment: with a non-empty leading comment it is the
lines of the leading comment (the comment split on line breaks: a non-empty sequence, no
element containing a line break, joining back to the comment) and it is the same whatever the
trailing comment is; with an empty leading comment and a non-empty trailing comment it is the
trailing comment; with both empty it is empty. -/
theorem addFieldFromPropertySignature_doc (stru : Struct) (prop : PropertySignature)
    (hname : prop.Name.Text ≠ []) :
    ∃ f : Field,
      addFieldFromPropertySignature stru prop
          = some { stru with Fields := stru.Fields ++ [f] } ∧
      (prop.LeadingComment ≠ [] →
        f.Doc = stringsSplitNewline prop.LeadingComment ∧
        f.Doc ≠ [] ∧ (∀ l ∈ f.Doc, 10 ∉ l) ∧
        stringsJoinNewline f.Doc = prop.LeadingComment ∧
        ∀ trailing : GoString, ∃ f1 : Field,
          addFieldFromPropertySignature stru { prop with TrailingComment := trailing }
            = some { stru with Fields := stru.Fields ++ [f1] } ∧ f1.Doc = f.Doc) ∧
      (prop.LeadingComment = [] → prop.TrailingComment ≠ [] →
        f.Doc = [prop.TrailingComment]) ∧
      (prop.LeadingComment = [] → prop.TrailingComment = [] → f.Doc = []) := by
  cases h : prop.Name.Text with
  | nil => exact absurd h hname
  | cons c rest =>
    refine ⟨_, addFieldFromPropertySignature_cons stru prop c rest h, ?_, ?_, ?_⟩
    · intro hl
      have hdoc : fieldDocOf prop = stringsSplitNewline prop.LeadingComment := by
        simp [fieldDocOf, hl]
      refine ⟨hdoc, ?_, ?_, ?_, fun trailing => ?_⟩
      · show fieldDocOf prop ≠ []
        rw [hdoc]; exact stringsSplitNewline_ne_nil _
      · show ∀ l ∈ fieldDocOf prop, 10 ∉ l
        rw [hdoc]; exact stringsSplitNewline_no_newline _
      · show stringsJoinNewline (fieldDocOf prop) = prop.LeadingComment
        rw [hdoc]; exact stringsJoinNewline_split _
      · exact ⟨_, addFieldFromPropertySignature_cons stru
          { prop with TrailingComment := trailing } c rest h, by simp [fieldDocOf, hl]⟩
    · intro hl ht; simp [fieldDocOf, hl, ht]
    · intro hl ht; simp [fieldDocOf, hl, ht]

/-- Witness for C18: `bar` with only the trailing comment `My field`; with the one-line
leading comment `Lead` as well; and with the two-line leading comment `a`, `b` as well, whose
Doc is the two lines `a` and `b`. -/
theorem addFieldFromPropertySignature_doc_witness :
    (addFieldFromPropertySignature fooStruct barProperty).map
        (fun s => s.Fields.map fun f => f.Doc) = some [[go "My field"]] ∧
    (addFieldFromPropertySignature fooStruct
        { barProperty with LeadingComment := go "Lead" }).map
        (fun s => s.Fields.map fun f => f.Doc) = some [[go "Lead"]] ∧
    (addFieldFromPropertySignature fooStruct
        { barProperty with LeadingComment := go "a\nb" }).map
        (fun s => s.Fields.map fun f => f.Doc) = some [[go "a", go "b"]] ∧
    (addFieldFromPropertySignature fooStruct
        { barProperty with LeadingComment := [], TrailingComment := [] }).map
        (fun s => s.Fields.map fun f => f.Doc) = some [[]] ∧
    ∃ f : Field,
      addFieldFromPropertySignature fooStruct { barProperty with LeadingComment := go "a\nb" }
          = some { fooStruct with Fields := fooStruct.Fields ++ [f] } ∧
      (go "a\nb" ≠ [] →
        f.Doc = stringsSplitNewline (go "a\nb") ∧
        f.Doc ≠ [] ∧ (∀ l ∈ f.Doc, 10 ∉ l) ∧
        stringsJoinNewline f.Doc = go "a\nb" ∧
        ∀ trailing : GoString, ∃ f1 : Field,
          addFieldFromPropertySignature fooStruct
              { barProperty with LeadingComment := go "a\nb", TrailingComment := trailing }
            = some { fooStruct with Fields := fooStruct.Fields ++ [f1] } ∧ f1.Doc = f.Doc) ∧
      (go "a\nb" = [] → go "My field" ≠ [] → f.Doc = [go "My field"]) ∧
      (go "a\nb" = [] → go "My field" = [] → f.Doc = []) :=
  ⟨by decide, by decide, by decide, by decide,
   addFieldFromPropertySignature_doc fooStruct
     { barProperty with LeadingComment := go "a\nb" } (by decide)⟩

/-- C19: for every type alias declaration whose right-hand side is not a type literal, not a
type reference naming an identifier and not a type reference whose type name is a type
literal, `handleTypeAliasDeclaration` returns the document unchanged. -/
theorem handleTypeAliasDeclaration_ignored (data : TemplateData) (node : TypeAliasDeclaration)
    (hliteral : ∀ members, node.Type_ ≠ .typeLiteral members)
    (hidentifier : ∀ typeName, node.Type_ ≠ .typeReference (.identifier typeName))
    (hindirect : ∀ members, node.Type_ ≠ .typeReference (.typeLiteral members)) :
    handleTypeAliasDeclaration data node = some data := by
  unfold handleTypeAliasDeclaration
  cases hT : node.Type_ with
  | typeLiteral ms => exact absurd hT (hliteral ms)
  | typeReference tn =>
    cases tn with
    | identifier t => exact absurd hT (hidentifier t)
    | typeLiteral ms => exact absurd hT (hindirect ms)
    | other k => rfl
  | other k => rfl

/-- Witness for C19: a union on the right-hand side, and a type reference with another kind
of type name, on a document that already holds a struct. -/
theorem handleTypeAliasDeclaration_ignored_witness :
    handleTypeAliasDeclaration ⟨false, go "types", [fooStruct], [], []⟩
        { Name := ⟨go "U"⟩, Type_ := .other 0, LeadingComment := go "doc" }
      = some ⟨false, go "types", [fooStruct], [], []⟩ ∧
    handleTypeAliasDeclaration ⟨false, go "types", [fooStruct], [], []⟩
        { Name := ⟨go "U"⟩, Type_ := .typeReference (.other 0), LeadingComment := go "doc" }
      = some ⟨false, go "types", [fooStruct], [], []⟩ :=
  ⟨handleTypeAliasDeclaration_ignored _ _ (fun _ h => by cases h) (fun _ h => by cases h)
     (fun _ h => by cases h),
   handleTypeAliasDeclaration_ignored _ _ (fun _ h => by cases h) (fun _ h => by cases h)
     (fun _ h => by cases h)⟩

/-- C20 (the code at the failing input): a property whose only comment is the two-line
trailing comment `a`, `b` gets the Doc with the one element `a⏎b`, which contains a line
break; the same text as leading comment is split into the two elements `a` and `b`. -/
theorem addFieldFromPropertySignature_trailing_not_split :
    (addFieldFromPropertySignature fooStruct
        { barProperty with TrailingComment := go "a\nb" }).map
        (fun s => s.Fields.map fun f => f.Doc) = some [[go "a\nb"]] ∧
    10 ∈ go "a\nb" ∧
    (addFieldFromPropertySignature fooStruct
        { barProperty with LeadingComment := go "a\nb", TrailingComment := [] }).map
        (fun s => s.Fields.map fun f => f.Doc) = some [[go "a", go "b"]] := by
  decide

end Ts2go
